import Mathlib

/-!
Verification of the core of orange3-single-cell against its specification.

The development shallowly embeds the two algorithmic source files:
* orangecontrib/single_cell/widgets/load_data.py (the Loader hierarchy and
  the Concatenate engine), and
* orangecontrib/single_cell/preprocess/scnormalize.py (ScNormalizeModel).

Numeric values are modelled over the rationals.  Missing values (NaN) are not
modelled, so nansum and nanmedian coincide with sum and median.  Randomness is
modelled by passing the sequence of uniform(0,100) draws explicitly, and file
input-output is modelled by passing the parsed content of a file as an
argument.  A Python exception that escapes a function is modelled with Except;
a Python None field is modelled with Option.
-/

/- ### Sampling policy (load_data.py, Loader) -/

/-- The per-index skip test installed by Loader.__skip_row and
Loader.__skip_col (load_data.py lines 238-254): the closure returns
True (drop the index) exactly when the index is greater than 3 and the
uniform(0,100) draw for this index exceeds the configured percentage.
The bound 3 is a hard-coded constant in the source, independent of the
configured header row or column counts. -/
def skipIndexTest (p : ℚ) (i : ℕ) (draw : ℚ) : Bool :=
  decide (3 < i) && decide (p < draw)

/-- Loader.__skip_row (and identically __skip_col): the skip closure is
installed only when sampling is enabled and the percentage is below 100,
otherwise no closure is produced and nothing is dropped. -/
def skipRowTest (enabled : Bool) (p : ℚ) : Option (ℕ → ℚ → Bool) :=
  if enabled && decide (p < 100) then some (fun i draw => skipIndexTest p i draw)
  else none

/-- One entry of the column retention mask built by
Loader.__update_reading_parameters (lines 265-268): a column index is used
when the skip test does not drop it, or when it is one of the configured
header column indices (header columns are force-kept by the mask). -/
def useColEntry (p : ℚ) (headerCols : List ℕ) (i : ℕ) (draw : ℚ) : Bool :=
  !(skipIndexTest p i draw) || decide (i ∈ headerCols)

/- ### Sparse-coordinate probing (load_data.py, MtxLoader._set_file_parameters) -/

/-- MtxLoader._set_file_parameters (load_data.py lines 444-453).
The input is the result of scipy.io.mminfo on the file: the declared
(rows, cols, nonzeros) from the coordinate-format header, or none when
opening or parsing the file fails with OSError or ValueError (the two
exception classes the method catches).  The Except layer models an
uncaught Python exception escaping the constructor: the sparsity
computation divides by rows * cols with no guard, so a declared zero-size
matrix raises ZeroDivisionError, which is caught by neither handler.
On success the result carries the (n_rows, n_cols, sparsity) fields;
none means the field stays unset. -/
def mtxSetFileParameters (info : Option (ℕ × ℕ × ℕ)) :
    Except Unit (Option ℕ × Option ℕ × Option ℚ) :=
  match info with
  | none => Except.ok (none, none, none)
  | some (r, c, nz) =>
    if r * c = 0 then Except.error ()
    else Except.ok (some r, some c,
      some ((((r * c : ℕ) : ℚ) - (nz : ℚ)) / ((r * c : ℕ) : ℚ)))

/- ### Theorems for C1 -/

/-- C1, counterexample.  The claim states that the retention test keeps an
index unconditionally exactly when its position is at most the configured
header count, and drops a later index exactly when its draw exceeds p.
This fails on the code: with one header row, index 2, percentage 50 and
draw 60, the claim demands that the index be dropped (2 is past the single
header row and 60 exceeds 50), but the hard-coded test keeps every index
up to 3, so the code keeps it. -/
theorem C1_counterexample :
    ¬ ∀ (hdr i : ℕ) (p draw : ℚ), p < 100 →
      (skipIndexTest p i draw = true ↔ (hdr < i ∧ p < draw)) := by
  intro h
  have h2 := (h 1 2 50 60 (by norm_num)).2 ⟨by norm_num, by norm_num⟩
  simp [skipIndexTest] at h2

/-- C1, amended.  For a configured sampling percentage p < 100, the
installed per-index test keeps every index at position at most 3
unconditionally (3 is a hard-coded constant, not the configured header
count), and drops an index at a position greater than 3 exactly when its
uniform(0,100) draw exceeds p; in addition, the column retention mask
force-keeps every configured header column index. -/
theorem C1_amended (p : ℚ) (hp : p < 100) :
    ∃ t, skipRowTest true p = some t ∧
      (∀ i draw, i ≤ 3 → t i draw = false) ∧
      (∀ i draw, 3 < i → (t i draw = true ↔ p < draw)) ∧
      (∀ headerCols i draw, i ∈ headerCols →
        useColEntry p headerCols i draw = true) := by
  refine ⟨fun i draw => skipIndexTest p i draw, ?_, ?_, ?_, ?_⟩
  · simp [skipRowTest, hp]
  · intro i draw hi
    simp [skipIndexTest, Nat.not_lt.mpr hi]
  · intro i draw hi
    simp [skipIndexTest, hi]
  · intro headerCols i draw hi
    simp [useColEntry, hi]

/-- C1, witness for the amended theorem at p = 50: index 2 with draw 60 is
kept, index 5 with draw 60 is dropped, index 5 with draw 40 is kept, and a
header column at index 5 is kept by the mask. -/
theorem C1_amended_witness :
    (50 : ℚ) < 100 ∧
    ∃ t, skipRowTest true 50 = some t ∧
      (∀ i draw, i ≤ 3 → t i draw = false) ∧
      (∀ i draw, 3 < i → (t i draw = true ↔ (50 : ℚ) < draw)) ∧
      (∀ headerCols i draw, i ∈ headerCols →
        useColEntry 50 headerCols i draw = true) :=
  ⟨by norm_num, C1_amended 50 (by norm_num)⟩

/- ### Theorems for C3 -/

/-- C3, counterexample.  The claim states that the zero-size case is
guarded and that a probing failure never raises.  On the code, a
coordinate-format header declaring a 0 x 0 matrix with 0 nonzeros makes
the sparsity computation divide by zero; ZeroDivisionError is not among
the caught exception classes (OSError, ValueError), so construction
raises. -/
theorem C3_counterexample :
    mtxSetFileParameters (some (0, 0, 0)) = Except.error () := rfl

/-- C3, amended.  Construction of the mtx loader probes only the
coordinate-format header metadata.  When reading the header fails with
OSError or ValueError, construction succeeds with the size, shape and
sparsity fields left unset.  When the header is read and the declared
size rows * cols is nonzero, the fields are set with
sparsity = 1 - nonzero / (rows * cols).  There is no guard for the
zero-size case: a declared size of zero raises an uncaught
ZeroDivisionError. -/
theorem C3_amended (r c nz : ℕ) (h : r * c ≠ 0) :
    mtxSetFileParameters none = Except.ok (none, none, none) ∧
    mtxSetFileParameters (some (r, c, nz)) =
      Except.ok (some r, some c,
        some (1 - (nz : ℚ) / ((r * c : ℕ) : ℚ))) ∧
    mtxSetFileParameters (some (0, 0, 0)) = Except.error () := by
  refine ⟨rfl, ?_, rfl⟩
  have hq : ((r * c : ℕ) : ℚ) ≠ 0 := Nat.cast_ne_zero.mpr h
  simp only [mtxSetFileParameters, if_neg h]
  rw [sub_div, div_self hq]

/-- C3, witness for the amended theorem on the spec fixture: a header
declaring 4 rows, 6 columns and 9 nonzeros gives sparsity 1 - 9/24,
that is 0.625. -/
theorem C3_amended_witness :
    4 * 6 ≠ 0 ∧
    (mtxSetFileParameters none = Except.ok (none, none, none) ∧
     mtxSetFileParameters (some (4, 6, 9)) =
       Except.ok (some 4, some 6,
         some (1 - (9 : ℚ) / ((4 * 6 : ℕ) : ℚ))) ∧
     mtxSetFileParameters (some (0, 0, 0)) = Except.error ()) :=
  ⟨by norm_num, C3_amended 4 6 9 (by norm_num)⟩

/- ### Error map and invocation flow (load_data.py, Loader.__call__) -/

/-- The loader error map (load_data.py).  Loader.__reset_error_messages
(lines 380-384) maps each of the four fixed keys to the empty tuple; a
recorded error replaces the empty tuple with a payload.  An empty tuple
is modelled as none and a payload as some. -/
structure ErrorMap where
  row_annot_mismatch : Option (ℕ × ℕ)
  col_annot_mismatch : Option (ℕ × ℕ)
  inadequate_headers : Option (ℕ × ℕ)
  reading_error : Option Unit
  deriving DecidableEq

/-- Loader.__reset_error_messages: every key maps to the empty tuple. -/
def resetErrorMessages : ErrorMap :=
  { row_annot_mismatch := none, col_annot_mismatch := none,
    inadequate_headers := none, reading_error := none }

/-- The expected sidecar length computed by Loader.__update_metas
(lines 286-290) and Loader.__update_attributes (lines 335-338): mask
length minus the leading header count when a retention mask exists, else
the corresponding dimension of the loaded matrix. -/
def expectedAnnot (mask : Option (List Bool)) (leading n : ℕ) : ℕ :=
  match mask with
  | some m => m.length - leading
  | none => n

/-- Selection of the sidecar rows at the true positions of a mask,
as in row_annot_df.iloc[np.flatnonzero(mask)] . -/
def selectByMask {α : Type} (mask : List Bool) (xs : List α) : List α :=
  ((xs.zip mask).filter (fun q => q.2)).map Prod.fst

/-- Loader.__update_metas (lines 280-298), up to the mismatch check and
mask selection.  Input: the row retention mask (none when no row sampling
happened), the leading header row count, the row count of the loaded
matrix, and the parsed sidecar rows.  Output: the recorded
row_annot_mismatch payload (none when no mismatch) and the sidecar rows
to attach (none when the merge was aborted).  The subsequent
index-deduplication step of the source (lines 302-327) only drops sidecar
columns or index levels that duplicate the primary index; it never
records an error and never changes whether a table is produced, so it is
not modelled. -/
def updateMetas {α : Type} (useRowsMask : Option (List Bool))
    (leadingRows nX : ℕ) (rowAnnot : List α) :
    Option (ℕ × ℕ) × Option (List α) :=
  let expected := expectedAnnot useRowsMask leadingRows nX
  if rowAnnot.length ≠ expected then
    (some (expected, rowAnnot.length), none)
  else
    match useRowsMask with
    | some m => (none, some (selectByMask (m.drop leadingRows) rowAnnot))
    | none => (none, some rowAnnot)

/-- The assembled table of one invocation: the matrix row count together
with the attached row-annotation block, if any. -/
structure LoadedTable (α : Type) where
  nRows : ℕ
  rowAnnot : Option (List α)
  deriving DecidableEq

/-- Loader.__call__ (lines 173-208) together with __into_orange_table
(lines 357-378), at the level of the produced table and the error map.

Inputs: the error map from before the invocation (self.errors), the raw
read result (none models an exception inside _load_data, some nX a
successful read of a matrix with nX rows), the row retention mask and
leading row count as they stand after the transpose swap in _load_data,
the row-annotation configuration and parsed sidecar rows, the column
counterparts, and the transpose flag.

Flow, as in the source: reset the error map; on a raw read failure record
reading_error and return no table; otherwise run the row-annotation merge
when enabled and configured, then the column-annotation mismatch check
when enabled and configured; finally assemble the table, which succeeds
exactly when every attached metadata block has as many rows as the
matrix, and otherwise records inadequate_headers with the leading counts
(swapped back when transposed) and returns no table. -/
def loaderCall {α : Type} (pre : ErrorMap) (raw : Option ℕ)
    (useRowsMask : Option (List Bool)) (leadingRows : ℕ)
    (rowAnnotEnabled : Bool) (rowAnnotFile : Option String)
    (rowAnnot : List α)
    (useColsMask : Option (List Bool)) (leadingCols : ℕ) (nColsX : ℕ)
    (colAnnotEnabled : Bool) (colAnnotFile : Option String)
    (colAnnotLen : ℕ) (transposed : Bool) :
    Option (LoadedTable α) × ErrorMap :=
  let errs := resetErrorMessages
  match raw with
  | none => (none, { errs with reading_error := some () })
  | some nX =>
    let rowRes :=
      if rowAnnotEnabled && rowAnnotFile.isSome then
        updateMetas useRowsMask leadingRows nX rowAnnot
      else (none, none)
    let errs := { errs with row_annot_mismatch := rowRes.1 }
    let colErr :=
      if colAnnotEnabled && colAnnotFile.isSome then
        let expectedC := expectedAnnot useColsMask leadingCols nColsX
        if colAnnotLen ≠ expectedC then some (expectedC, colAnnotLen) else none
      else none
    let errs := { errs with col_annot_mismatch := colErr }
    if rowRes.2.all (fun l => decide (l.length = nX)) then
      (some { nRows := nX, rowAnnot := rowRes.2 }, errs)
    else
      let hdr := if transposed then (leadingCols, leadingRows)
        else (leadingRows, leadingCols)
      (none, { errs with inadequate_headers := some hdr })

/-- PickleLoader.__call__ (lines 525-526) returns self._load_data()
directly, without the reset performed by Loader.__call__; _load_data
(lines 515-523) deserializes the table and samples rows and attributes,
and never reads or writes self.errors.  The invocation is modelled as
returning the sampled table row count while leaving the error map exactly
as it was. -/
def pickleLoaderCall (pre : ErrorMap) (tableRows : ℕ) : ℕ × ErrorMap :=
  (tableRows, pre)

/- ### Theorems for C4 -/

/-- C4, counterexample.  The claim states that every loader variant,
including the pickle loader, begins an invocation by resetting the error
map.  On the code, PickleLoader.__call__ bypasses Loader.__call__ and
never touches the error map: invoking it on a loader whose error map
still holds a row_annot_mismatch payload from before leaves that payload
observable afterwards. -/
theorem C4_counterexample :
    (pickleLoaderCall
      { resetErrorMessages with row_annot_mismatch := some (1, 2) } 5).2
      = { resetErrorMessages with row_annot_mismatch := some (1, 2) } ∧
    ({ resetErrorMessages with row_annot_mismatch := some (1, 2) } : ErrorMap)
      ≠ resetErrorMessages :=
  ⟨rfl, by decide⟩

/-- C4, amended.  Every text-format loader invocation begins by resetting
the error map, so its resulting error state is independent of the error
state left by any previous invocation; the pickle loader is the
exception: its invocation leaves the error map exactly as it was. -/
theorem C4_amended :
    (∀ (pre pre' : ErrorMap) (raw : Option ℕ)
       (mask : Option (List Bool)) (lr : ℕ) (rae : Bool)
       (raf : Option String) (ra : List ℕ) (cmask : Option (List Bool))
       (lc ncx : ℕ) (cae : Bool) (caf : Option String) (cal : ℕ)
       (tr : Bool),
      (loaderCall pre raw mask lr rae raf ra cmask lc ncx cae caf cal tr).2
        = (loaderCall pre' raw mask lr rae raf ra cmask lc ncx cae caf cal
            tr).2) ∧
    (∀ (pre : ErrorMap) (n : ℕ), (pickleLoaderCall pre n).2 = pre) :=
  ⟨fun _ _ _ _ _ _ _ _ _ _ _ _ _ _ _ => rfl, fun _ _ => rfl⟩

/- ### Theorems for C5 -/

/-- C5, confirmed.  Whenever the row-annotation sidecar row count differs
from the expected count (mask length minus leading header count when a
mask exists, else the matrix row count), the invocation records
row_annot_mismatch = (expected, actual), skips attaching the annotation,
and still produces the final table; reading_error and inadequate_headers
stay empty.  The embedding is a total function, so no exception is
raised. -/
theorem C5_row_annot_mismatch (pre : ErrorMap) (nX : ℕ)
    (mask : Option (List Bool)) (lr : ℕ) (f : String) (ra : List ℕ)
    (cmask : Option (List Bool)) (lc ncx : ℕ) (cae : Bool)
    (caf : Option String) (cal : ℕ) (tr : Bool)
    (h : ra.length ≠ expectedAnnot mask lr nX) :
    (loaderCall pre (some nX) mask lr true (some f) ra cmask lc ncx cae caf
        cal tr).1
      = some { nRows := nX, rowAnnot := none } ∧
    (loaderCall pre (some nX) mask lr true (some f) ra cmask lc ncx cae caf
        cal tr).2.row_annot_mismatch
      = some (expectedAnnot mask lr nX, ra.length) ∧
    (loaderCall pre (some nX) mask lr true (some f) ra cmask lc ncx cae caf
        cal tr).2.reading_error = none ∧
    (loaderCall pre (some nX) mask lr true (some f) ra cmask lc ncx cae caf
        cal tr).2.inadequate_headers = none := by
  simp only [loaderCall, updateMetas, if_pos h, Bool.and_self, Option.isSome,
    Option.all_none, Bool.true_and, if_true]
  refine ⟨?_, ?_, ?_, ?_⟩ <;>
    simp [resetErrorMessages]

/-- C5, witness: a 4-row matrix, no sampling mask, a 3-row sidecar.  The
mismatch (4, 3) is recorded, the table is produced without the
annotation. -/
theorem C5_row_annot_mismatch_witness :
    (loaderCall (α := ℕ) resetErrorMessages (some 4) none 0 true
        (some "annot.tsv") [10, 20, 30] none 0 6 false none 0 false).1
      = some { nRows := 4, rowAnnot := none } ∧
    (loaderCall (α := ℕ) resetErrorMessages (some 4) none 0 true
        (some "annot.tsv") [10, 20, 30] none 0 6 false none 0 false).2.row_annot_mismatch
      = some (expectedAnnot none 0 4, [10, 20, 30].length) ∧
    (loaderCall (α := ℕ) resetErrorMessages (some 4) none 0 true
        (some "annot.tsv") [10, 20, 30] none 0 6 false none 0
        false).2.reading_error = none ∧
    (loaderCall (α := ℕ) resetErrorMessages (some 4) none 0 true
        (some "annot.tsv") [10, 20, 30] none 0 6 false none 0
        false).2.inadequate_headers = none :=
  C5_row_annot_mismatch resetErrorMessages 4 none 0 "annot.tsv" [10, 20, 30]
    none 0 6 false none 0 false (by decide)

/- ### Normalization model (scnormalize.py, ScNormalizeModel) -/

/-- Orange.statistics.util.nansum over one row.  Missing values are not
modelled, so the nan-ignoring sum is the plain sum. -/
def nansum (l : List ℚ) : ℚ := l.sum

/-- Orange.statistics.util.nanmedian: sort the values; for an odd count
take the middle value, for an even count the mean of the two middle
values.  Missing values are not modelled. -/
def nanmedian (xs : List ℚ) : ℚ :=
  let s := List.insertionSort (· ≤ ·) xs
  if s.length % 2 = 1 then s.getD (s.length / 2) 0
  else (s.getD (s.length / 2 - 1) 0 + s.getD (s.length / 2) 0) / 2

/-- nansum(X, axis=1): the per-row sums of a matrix given as its list of
rows. -/
def rowSums (X : List (List ℚ)) : List ℚ := X.map nansum

/-- ScNormalizeModel.fit with Y = None (scnormalize.py line 86):
target_row_mean is the median of the per-row sums. -/
def fitTargetRowMean (X : List (List ℚ)) : ℚ := nanmedian (rowSums X)

/-- np.where(Y == lib)[0]: the row indices belonging to one group. -/
def groupIndices {G : Type} [DecidableEq G] (Y : List G) (lib : G) :
    List ℕ :=
  (List.range Y.length).filter (fun i => decide (Y.get? i = some lib))

/-- nansum(X[rows, :], axis=1) for the rows of one group. -/
def groupRowSums {G : Type} [DecidableEq G] (X : List (List ℚ)) (Y : List G)
    (lib : G) : List ℚ :=
  (groupIndices Y lib).map (fun i => nansum (X.getD i []))

/-- lib_sizes[lib] (scnormalize.py line 81): the median of the per-row
sums restricted to one group. -/
def libSize {G : Type} [DecidableEq G] (X : List (List ℚ)) (Y : List G)
    (lib : G) : ℚ :=
  nanmedian (groupRowSums X Y lib)

/-- Python min over a collection of values; the empty case, on which
Python raises, defaults to 0 and is excluded by the nonempty hypothesis
of the theorems below. -/
def minList (l : List ℚ) : ℚ :=
  match l with
  | [] => 0
  | x :: xs => xs.foldl min x

/-- ScNormalizeModel.fit with a grouping vector Y (scnormalize.py lines
77-84): the distinct group labels, their group medians, the target row
mean as the minimum group median, and size_factors mapping each group to
target / groupMedian. -/
def fitGrouped {G : Type} [DecidableEq G] (X : List (List ℚ))
    (Y : List G) : ℚ × List (G × ℚ) :=
  let libs := Y.dedup
  let target := minList (libs.map (libSize X Y))
  (target, libs.map (fun l => (l, target / libSize X Y l)))

/-- The per-row scale factor of ScNormalizeModel.transform (lines
110-115): rs with zeros replaced by 1, then target / rs. -/
def scaleFactor (target s : ℚ) : ℚ :=
  target / (if s = 0 then 1 else s)

/-- ScNormalizeModel.transform with normalize_cells = True, log_base =
None and bin_thresh = None (scnormalize.py lines 103-126): the diagonal
row-scaling multiply diag(factors) . X, where factors are the per-row
scale factors computed from the per-row sums. -/
def transformCellNorm (target : ℚ) (X : List (List ℚ)) :
    List (List ℚ) :=
  List.zipWith (fun s row => row.map (fun v => scaleFactor target s * v))
    (rowSums X) X

/- helper lemmas for the normalization theorems -/

theorem zipWith_rowSums_eq_map (f : ℚ → List ℚ → List ℚ)
    (X : List (List ℚ)) :
    List.zipWith (fun s row => f s row) (rowSums X) X
      = X.map (fun row => f (nansum row) row) := by
  induction X with
  | nil => rfl
  | cons r rs ih =>
    simp only [rowSums, List.map_cons, List.zipWith_cons_cons, List.map]
    exact congrArg _ ih

theorem sum_map_mul_left (c : ℚ) (l : List ℚ) :
    (l.map (fun v => c * v)).sum = c * l.sum := by
  induction l with
  | nil => simp
  | cons x xs ih => simp [ih, mul_add]

theorem all_zero_of_sum_zero (l : List ℚ) (h : ∀ v ∈ l, 0 ≤ v)
    (hs : l.sum = 0) : ∀ v ∈ l, v = 0 := by
  induction l with
  | nil => intro v hv; cases hv
  | cons x xs ih =>
    have hx : 0 ≤ x := h x (List.mem_cons_self x xs)
    have hxs : 0 ≤ xs.sum :=
      List.sum_nonneg (fun v hv => h v (List.mem_cons_of_mem x hv))
    have hsum : x + xs.sum = 0 := by simpa using hs
    have hx0 : x = 0 := by linarith
    have hxs0 : xs.sum = 0 := by linarith
    intro v hv
    rcases List.mem_cons.mp hv with hv | hv
    · exact hv ▸ hx0
    · exact ih (fun w hw => h w (List.mem_cons_of_mem x hw)) hxs0 v hv

theorem foldl_min_le_init (a : ℚ) (xs : List ℚ) : xs.foldl min a ≤ a := by
  induction xs generalizing a with
  | nil => exact le_refl a
  | cons x xs ih =>
    calc (x :: xs).foldl min a = xs.foldl min (min a x) := rfl
    _ ≤ min a x := ih (min a x)
    _ ≤ a := min_le_left a x

theorem foldl_min_le_mem (x : ℚ) (xs : List ℚ) :
    ∀ a : ℚ, x ∈ xs → xs.foldl min a ≤ x := by
  induction xs with
  | nil => intro a hx; cases hx
  | cons y ys ih =>
    intro a hx
    rcases List.mem_cons.mp hx with h | h
    · subst h
      calc ys.foldl min (min a x) ≤ min a x := foldl_min_le_init _ _
      _ ≤ x := min_le_right a x
    · exact ih (min a y) h

theorem foldl_min_mem (a : ℚ) (xs : List ℚ) :
    xs.foldl min a = a ∨ xs.foldl min a ∈ xs := by
  induction xs generalizing a with
  | nil => exact Or.inl rfl
  | cons x xs ih =>
    rcases ih (min a x) with h | h
    · rcases min_choice a x with hm | hm
      · exact Or.inl (by simpa [hm] using h)
      · exact Or.inr (by simp [List.foldl_cons]; left; rw [h, hm])
    · exact Or.inr (List.mem_cons_of_mem x h)

theorem minList_le_of_mem (l : List ℚ) (x : ℚ) (hx : x ∈ l) :
    minList l ≤ x := by
  cases l with
  | nil => cases hx
  | cons y ys =>
    rcases List.mem_cons.mp hx with h | h
    · subst h; exact foldl_min_le_init _ _
    · exact foldl_min_le_mem _ _ _ h

theorem minList_mem (l : List ℚ) (hl : l ≠ []) : minList l ∈ l := by
  cases l with
  | nil => exact absurd rfl hl
  | cons y ys =>
    show ys.foldl min y ∈ y :: ys
    rcases foldl_min_mem y ys with h | h
    · rw [h]; exact List.mem_cons_self y ys
    · exact List.mem_cons_of_mem y h

theorem lookup_map_pair {G : Type} [DecidableEq G] (f : G → ℚ)
    (libs : List G) (lib : G) (hmem : lib ∈ libs) :
    ((libs.map (fun l => (l, f l))).lookup lib) = some (f lib) := by
  induction libs with
  | nil => cases hmem
  | cons l ls ih =>
    by_cases hl : lib = l
    · subst hl
      simp [List.lookup]
    · have hbeq : (lib == l) = false := beq_eq_false_iff_ne.mpr hl
      rcases List.mem_cons.mp hmem with h | h
      · exact absurd h hl
      · simpa [List.lookup, hbeq] using ih h

/- ### Theorems for C2 -/

/-- C2, confirmed.  For a count matrix (entries nonnegative), after fit
with no grouping, which sets the target row mean to the median M of the
per-row sums, transform with cell normalization enabled and no log or
binarization step rescales every row with nonzero sum to a new sum of
exactly M, and leaves every row with sum 0 unchanged (all its entries are
zero, so the applied factor has no effect). -/
theorem C2_cell_normalization (X : List (List ℚ))
    (hpos : ∀ row ∈ X, ∀ v ∈ row, 0 ≤ v) :
    ∀ i row, X.get? i = some row →
      (nansum row ≠ 0 →
        ∃ row', (transformCellNorm (fitTargetRowMean X) X).get? i
            = some row' ∧
          nansum row' = fitTargetRowMean X) ∧
      (nansum row = 0 →
        (transformCellNorm (fitTargetRowMean X) X).get? i = some row) := by
  intro i row hrow
  have hget : (transformCellNorm (fitTargetRowMean X) X).get? i
      = some (row.map
          (fun v => scaleFactor (fitTargetRowMean X) (nansum row) * v)) := by
    rw [transformCellNorm, zipWith_rowSums_eq_map, List.get?_map, hrow]
    rfl
  constructor
  · intro hne
    refine ⟨_, hget, ?_⟩
    show (row.map
      (fun v => scaleFactor (fitTargetRowMean X) (nansum row) * v)).sum = _
    rw [sum_map_mul_left, scaleFactor, if_neg hne]
    exact div_mul_cancel₀ _ hne
  · intro h0
    rw [hget]
    have hmem : row ∈ X := List.get?_mem hrow
    have hz : ∀ v ∈ row, v = 0 :=
      all_zero_of_sum_zero row (hpos row hmem) h0
    have hmap : ∀ v ∈ row,
        scaleFactor (fitTargetRowMean X) (nansum row) * v = v := by
      intro v hv
      rw [hz v hv, mul_zero]
    rw [List.map_congr_left hmap, List.map_id']

/-- Fixture matrix for the C2 witness: per-row sums are 3, 0, 6, so the
fitted target row mean is the median 3. -/
def c2X : List (List ℚ) := [[1, 2], [0, 0], [3, 3]]

/-- C2, witness: on the fixture, the zero row stays unchanged and the
first row is rescaled to sum 3. -/
theorem C2_cell_normalization_witness :
    (transformCellNorm (fitTargetRowMean c2X) c2X).get? 1 = some [0, 0] ∧
    (∃ row', (transformCellNorm (fitTargetRowMean c2X) c2X).get? 0
        = some row' ∧ nansum row' = fitTargetRowMean c2X) :=
  ⟨(C2_cell_normalization c2X
        (by intro row hr v hv; fin_cases hr <;> fin_cases hv <;> norm_num)
        1 [0, 0] rfl).2 (by norm_num [nansum]),
   (C2_cell_normalization c2X
        (by intro row hr v hv; fin_cases hr <;> fin_cases hv <;> norm_num)
        0 [1, 2] rfl).1 (by norm_num [nansum])⟩

/- ### Theorems for C6 -/

/-- C6, confirmed.  Fit with no grouping sets the target row mean to the
median of the per-row sums.  Fit with a grouping vector partitions the
row indices by group label (an index belongs to the group list of exactly
its own label), sets the target row mean to the minimum over the distinct
groups of the group medians of per-row sums (it is a lower bound and is
attained), and maps every group to the size factor target / groupMedian. -/
theorem C6_fit (G : Type) [DecidableEq G] (X : List (List ℚ)) (Y : List G)
    (hY : Y ≠ []) :
    fitTargetRowMean X = nanmedian (rowSums X) ∧
    (∀ i lib, i ∈ groupIndices Y lib ↔ Y.get? i = some lib) ∧
    (∀ lib ∈ Y.dedup, (fitGrouped X Y).1 ≤ libSize X Y lib) ∧
    (∃ lib ∈ Y.dedup, (fitGrouped X Y).1 = libSize X Y lib) ∧
    (∀ lib ∈ Y.dedup, (fitGrouped X Y).2.lookup lib
        = some ((fitGrouped X Y).1 / libSize X Y lib)) := by
  refine ⟨rfl, ?_, ?_, ?_, ?_⟩
  · intro i lib
    simp only [groupIndices, List.mem_filter, List.mem_range,
      decide_eq_true_eq]
    constructor
    · exact fun h => h.2
    · intro h
      obtain ⟨hlt, _⟩ := List.get?_eq_some.mp h
      exact ⟨hlt, h⟩
  · intro lib hlib
    exact minList_le_of_mem _ _ (List.mem_map_of_mem _ hlib)
  · have hne : (Y.dedup).map (libSize X Y) ≠ [] := by
      simp only [ne_eq, List.map_eq_nil, List.dedup_eq_nil]
      exact hY
    obtain ⟨lib, hlib, heq⟩ :=
      List.mem_map.mp (minList_mem _ hne)
    exact ⟨lib, hlib, heq.symm⟩
  · intro lib hlib
    exact lookup_map_pair _ _ _ hlib

/-- C6, witness: X with rows summing to 1, 3 and 10, grouping [0, 0, 1].
Group 0 has median 2, group 1 has median 10, the target is 2 and the size
factors are 1 and 1/5. -/
theorem C6_fit_witness :
    fitTargetRowMean [[(1 : ℚ)], [3], [10]]
        = nanmedian (rowSums [[(1 : ℚ)], [3], [10]]) ∧
    (∀ i lib, i ∈ groupIndices [0, 0, 1] lib
        ↔ ([0, 0, 1] : List ℕ).get? i = some lib) ∧
    (∀ lib ∈ ([0, 0, 1] : List ℕ).dedup,
        (fitGrouped [[(1 : ℚ)], [3], [10]] [0, 0, 1]).1
          ≤ libSize [[(1 : ℚ)], [3], [10]] [0, 0, 1] lib) ∧
    (∃ lib ∈ ([0, 0, 1] : List ℕ).dedup,
        (fitGrouped [[(1 : ℚ)], [3], [10]] [0, 0, 1]).1
          = libSize [[(1 : ℚ)], [3], [10]] [0, 0, 1] lib) ∧
    (∀ lib ∈ ([0, 0, 1] : List ℕ).dedup,
        (fitGrouped [[(1 : ℚ)], [3], [10]] [0, 0, 1]).2.lookup lib
          = some ((fitGrouped [[(1 : ℚ)], [3], [10]] [0, 0, 1]).1
              / libSize [[(1 : ℚ)], [3], [10]] [0, 0, 1] lib)) :=
  C6_fit ℕ [[(1 : ℚ)], [3], [10]] [0, 0, 1] (by decide)

/- ### Binarization (scnormalize.py, ScNormalizeModel.transform lines 137-142) -/

/-- The dense binarization branch: Xeq = (Xeq > bin_thresh), a matrix of
NumPy booleans whose numeric values are 1 and 0. -/
def binarizeDense (T : ℚ) (X : List (List ℚ)) : List (List ℚ) :=
  X.map (fun row => row.map (fun v => if T < v then 1 else 0))

/-- A sparse matrix as its shape and its list of structurally stored
entries, each a position paired with the stored value. -/
structure SparseMat where
  nrows : ℕ
  ncols : ℕ
  entries : List ((ℕ × ℕ) × ℚ)
  deriving DecidableEq

/-- The logical value of a sparse matrix at one position: the stored
value if the position is stored, else 0. -/
def entryValue (es : List ((ℕ × ℕ) × ℚ)) (p : ℕ × ℕ) : ℚ :=
  match es.find? (fun e => decide (e.1 = p)) with
  | some e => e.2
  | none => 0

/-- The logical value of a sparse matrix at one position. -/
def sparseEntry (m : SparseMat) (p : ℕ × ℕ) : ℚ :=
  entryValue m.entries p

/-- The sparse binarization branch: Xeq.data = (Xeq.data >
bin_thresh).astype(int) maps every stored value to 1 or 0, and
Xeq.eliminate_zeros() then removes the stored entries that became 0. -/
def binarizeEntries (T : ℚ) (es : List ((ℕ × ℕ) × ℚ)) :
    List ((ℕ × ℕ) × ℚ) :=
  (es.map (fun e => (e.1, if T < e.2 then (1 : ℚ) else 0))).filter
    (fun e => decide (e.2 ≠ 0))

/-- The sparse binarization branch on a sparse matrix. -/
def binarizeSparse (T : ℚ) (m : SparseMat) : SparseMat :=
  { m with entries := binarizeEntries T m.entries }

/- helper lemmas for the binarization theorems -/

theorem keys_binarizeEntries_subset (T : ℚ) (es : List ((ℕ × ℕ) × ℚ))
    (p : ℕ × ℕ) (hp : p ∈ (binarizeEntries T es).map Prod.fst) :
    p ∈ es.map Prod.fst := by
  have hsub : List.Sublist ((binarizeEntries T es).map Prod.fst)
      ((es.map (fun e => (e.1, if T < e.2 then (1 : ℚ) else 0))).map
        Prod.fst) :=
    List.Sublist.map Prod.fst (List.filter_sublist _)
  have hmm := hsub.subset hp
  rw [List.map_map] at hmm
  simpa using hmm

theorem entryValue_not_stored (es : List ((ℕ × ℕ) × ℚ)) (p : ℕ × ℕ)
    (hp : p ∉ es.map Prod.fst) : entryValue es p = 0 := by
  have hfind : es.find? (fun e => decide (e.1 = p)) = none := by
    rw [List.find?_eq_none]
    intro e he
    simp only [decide_eq_true_eq]
    intro hep
    exact hp (hep ▸ List.mem_map_of_mem Prod.fst he)
  simp [entryValue, hfind]

theorem entryValue_binarize_of_stored (T : ℚ) (es : List ((ℕ × ℕ) × ℚ))
    (hnd : (es.map Prod.fst).Nodup) (p : ℕ × ℕ) (v : ℚ)
    (hmem : (p, v) ∈ es) :
    entryValue (binarizeEntries T es) p = if T < v then 1 else 0 := by
  induction es with
  | nil => cases hmem
  | cons e es ih =>
    have hnd2 : (es.map Prod.fst).Nodup := (List.nodup_cons.mp hnd).2
    have hnin : e.1 ∉ es.map Prod.fst := (List.nodup_cons.mp hnd).1
    rcases List.mem_cons.mp hmem with h | h
    · subst h
      by_cases hz : (if T < v then (1 : ℚ) else 0) = 0
      · have heq : binarizeEntries T ((p, v) :: es) = binarizeEntries T es := by
          simp only [binarizeEntries, List.map_cons, List.filter_cons]
          rw [if_neg (by simpa using hz)]
        have hrest : p ∉ (binarizeEntries T es).map Prod.fst :=
          fun hc => hnin (keys_binarizeEntries_subset T es p hc)
        rw [heq, entryValue_not_stored _ _ hrest]
        exact hz.symm
      · have heq : binarizeEntries T ((p, v) :: es)
            = (p, if T < v then (1 : ℚ) else 0) :: binarizeEntries T es := by
          simp only [binarizeEntries, List.map_cons, List.filter_cons]
          rw [if_pos (by simpa using hz)]
        rw [heq]
        simp [entryValue, List.find?_cons_of_pos]
    · have hpmem : p ∈ es.map Prod.fst := by
        simpa using List.mem_map_of_mem Prod.fst h
      have hpe : e.1 ≠ p := fun hc => hnin (by rw [hc]; exact hpmem)
      rw [← ih hnd2 h]
      by_cases hz : (if T < e.2 then (1 : ℚ) else 0) = 0
      · have heq : binarizeEntries T (e :: es) = binarizeEntries T es := by
          simp only [binarizeEntries, List.map_cons, List.filter_cons]
          rw [if_neg (by simpa using hz)]
        rw [heq]
      · have heq : binarizeEntries T (e :: es)
            = (e.1, if T < e.2 then (1 : ℚ) else 0) :: binarizeEntries T es := by
          simp only [binarizeEntries, List.map_cons, List.filter_cons]
          rw [if_pos (by simpa using hz)]
        rw [heq]
        have hfind : ((e.1, if T < e.2 then (1 : ℚ) else 0)
            :: binarizeEntries T es).find? (fun q => decide (q.1 = p))
            = (binarizeEntries T es).find? (fun q => decide (q.1 = p)) :=
          List.find?_cons_of_neg _ (by simpa using hpe)
        simp [entryValue, hfind]

theorem mem_binarizeEntries_val (T : ℚ) (es : List ((ℕ × ℕ) × ℚ)) :
    ∀ e ∈ binarizeEntries T es, e.2 = 1 := by
  intro e he
  obtain ⟨hmem, hpred⟩ := List.mem_filter.mp he
  obtain ⟨e', _, heq⟩ := List.mem_map.mp hmem
  have hne : e.2 ≠ 0 := by simpa using hpred
  rw [← heq] at hne ⊢
  by_cases hlt : T < e'.2
  · simp [hlt]
  · simp [hlt] at hne

/- ### Theorems for C9 -/

/-- Fixture for the C9 counterexample: a 1 x 2 sparse matrix storing the
single entry 5 at position (0, 0); position (0, 1) is an implicit zero. -/
def c9m : SparseMat := { nrows := 1, ncols := 2, entries := [((0, 0), 5)] }

/-- C9, counterexample.  The claim states that each input value maps to 1
exactly when it exceeds the threshold T.  With T = -1 this fails for
sparse input: the implicit zero at position (0, 1) exceeds -1, so the
claim demands output 1 there, but the sparse branch touches only stored
entries and the position stays 0; the dense branch on the same logical
matrix [[5, 0]] produces [[1, 1]], exhibiting the divergence. -/
theorem C9_counterexample :
    sparseEntry c9m (0, 1) = 0 ∧ (-1 : ℚ) < 0 ∧
    sparseEntry (binarizeSparse (-1) c9m) (0, 1) = 0 ∧
    binarizeDense (-1) [[5, 0]] = [[1, 1]] ∧ (0 : ℚ) ≠ 1 := by
  refine ⟨rfl, by norm_num, rfl, ?_, by norm_num⟩
  have h5 : (-1 : ℚ) < 5 := by norm_num
  have h0 : (-1 : ℚ) < 0 := by norm_num
  simp [binarizeDense, h5, h0]

/-- C9, amended.  For every threshold T: the dense branch maps every entry
to 1 exactly when it exceeds T, so every dense output entry is 0 or 1.
The sparse branch acts only on the stored entries: a stored entry with
value v ends with logical value 1 exactly when v exceeds T, an unstored
position (implicit zero) stays 0 regardless of T, every logical output
entry is 0 or 1, and the count of structurally stored entries never
increases.  (Only for T at least 0 do the sparse and dense rules agree on
implicit zeros; the original claim fails for negative T, see the
counterexample.) -/
theorem C9_binarize (T : ℚ) (X : List (List ℚ)) (m : SparseMat)
    (hnd : (m.entries.map Prod.fst).Nodup) :
    (∀ i row, X.get? i = some row →
      (binarizeDense T X).get? i
        = some (row.map (fun v => if T < v then (1 : ℚ) else 0))) ∧
    (∀ row ∈ binarizeDense T X, ∀ w ∈ row, w = 0 ∨ w = 1) ∧
    (binarizeSparse T m).entries.length ≤ m.entries.length ∧
    (∀ p v, (p, v) ∈ m.entries →
      sparseEntry (binarizeSparse T m) p = if T < v then 1 else 0) ∧
    (∀ p, p ∉ m.entries.map Prod.fst →
      sparseEntry (binarizeSparse T m) p = 0) ∧
    (∀ p, sparseEntry (binarizeSparse T m) p = 0 ∨
      sparseEntry (binarizeSparse T m) p = 1) := by
  refine ⟨?_, ?_, ?_, ?_, ?_, ?_⟩
  · intro i row h
    rw [binarizeDense, List.get?_map, h]
    rfl
  · intro row hrow w hw
    obtain ⟨row', _, hrow'⟩ := List.mem_map.mp hrow
    rw [← hrow'] at hw
    obtain ⟨v, _, hv⟩ := List.mem_map.mp hw
    by_cases hlt : T < v
    · right; rw [← hv]; simp [hlt]
    · left; rw [← hv]; simp [hlt]
  · calc (binarizeSparse T m).entries.length
        ≤ (m.entries.map
            (fun e => (e.1, if T < e.2 then (1 : ℚ) else 0))).length :=
          List.length_filter_le _ _
    _ = m.entries.length := List.length_map _ _
  · intro p v hmem
    exact entryValue_binarize_of_stored T m.entries hnd p v hmem
  · intro p hp
    have hp2 : p ∉ (binarizeEntries T m.entries).map Prod.fst :=
      fun hc => hp (keys_binarizeEntries_subset T m.entries p hc)
    exact entryValue_not_stored _ _ hp2
  · intro p
    unfold sparseEntry binarizeSparse entryValue
    cases hf : (binarizeEntries T m.entries).find?
        (fun e => decide (e.1 = p)) with
    | none => simp
    | some e =>
      right
      simp only []
      exact mem_binarizeEntries_val T m.entries e
        (List.mem_of_find?_eq_some hf)

/-- C9, witness for the amended theorem at T = 0 on the stored-entry
fixture: the keys of c9m are distinct, the stored 5 maps to 1, the
implicit zero stays 0, and the stored-entry count does not grow. -/
theorem C9_binarize_witness :
    (∀ i row, ([[(1 : ℚ), 0]]).get? i = some row →
      (binarizeDense 0 [[(1 : ℚ), 0]]).get? i
        = some (row.map (fun v => if (0 : ℚ) < v then (1 : ℚ) else 0))) ∧
    (∀ row ∈ binarizeDense 0 [[(1 : ℚ), 0]], ∀ w ∈ row, w = 0 ∨ w = 1) ∧
    (binarizeSparse 0 c9m).entries.length ≤ c9m.entries.length ∧
    (∀ p v, (p, v) ∈ c9m.entries →
      sparseEntry (binarizeSparse 0 c9m) p = if (0 : ℚ) < v then 1 else 0) ∧
    (∀ p, p ∉ c9m.entries.map Prod.fst →
      sparseEntry (binarizeSparse 0 c9m) p = 0) ∧
    (∀ p, sparseEntry (binarizeSparse 0 c9m) p = 0 ∨
      sparseEntry (binarizeSparse 0 c9m) p = 1) :=
  C9_binarize 0 [[(1 : ℚ), 0]] c9m (by simp [c9m])

/- ### Concatenation engine (load_data.py, class Concatenate) -/

namespace Concatenate

/-- Concatenate.INTERSECTION, UNION = range(2). -/
def INTERSECTION : ℕ := 0

def UNION : ℕ := 1

end Concatenate

/-- An input table for concatenation: its attribute names, its
metadata-column names, and its row count.  Orange variables are
identified by name here (within one concatenation all expression
attributes are continuous variables, whose identity is their name). -/
structure CTable where
  attrs : List String
  metas : List String
  nrows : ℕ

/-- The running concatenation result: the current attribute and metadata
names and, for every row accumulated so far, the source label stored in
its "source" metadata column. -/
structure ConcatResult where
  attrs : List String
  metas : List String
  rowSource : List String

/-- Concatenate.append_source_name (load_data.py lines 576-583): append a
categorical "source" variable to the metadata and assign the given label
to every row. -/
def appendSourceName (t : CTable) (name : String) : ConcatResult :=
  { attrs := t.attrs, metas := t.metas ++ ["source"],
    rowSource := List.replicate t.nrows name }

/-- One iteration of the loop in Concatenate.concatenate (lines 553-573):
the attribute set is the intersection or union (per mode) of the running
attributes and the next table's attributes, the metadata set is the union
of both sides' metadata, both are sorted by name, both tables are
transformed onto the combined schema (preserving their rows), the next
label is appended to the source variable's values and assigned to every
row of the next table, and the rows are concatenated. -/
def concatStep (mode : ℕ) (acc : ConcatResult) (p : CTable × String) :
    ConcatResult :=
  let aset := if mode = Concatenate.INTERSECTION then
      acc.attrs.toFinset ∩ p.1.attrs.toFinset
    else acc.attrs.toFinset ∪ p.1.attrs.toFinset
  let mset := acc.metas.toFinset ∪ p.1.metas.toFinset
  { attrs := aset.sort (· ≤ ·),
    metas := mset.sort (· ≤ ·),
    rowSource := acc.rowSource ++ List.replicate p.1.nrows p.2 }

/-- Concatenate.concatenate (lines 547-574): an empty collection returns
None; otherwise the first table seeds the running result via
append_source_name and the remaining tables are folded in.  The mode
argument is one of Concatenate.INTERSECTION and Concatenate.UNION. -/
def concatenate (mode : ℕ) (coll : List (CTable × String)) :
    Option ConcatResult :=
  match coll with
  | [] => none
  | (t, name) :: rest =>
    some (rest.foldl (concatStep mode) (appendSourceName t name))

/-- The union of all distinct attribute identities across the inputs. -/
def allAttrs (coll : List (CTable × String)) : Finset String :=
  coll.foldr (fun p s => p.1.attrs.toFinset ∪ s) ∅

/-- The attributes common to the first input and all remaining inputs. -/
def commonAttrs (t : CTable) (rest : List (CTable × String)) :
    Finset String :=
  rest.foldl (fun s p => s ∩ p.1.attrs.toFinset) t.attrs.toFinset

/-- The expected source column of the result: for each input in order,
its label repeated once per row. -/
def sourceColumn (coll : List (CTable × String)) : List String :=
  (coll.map (fun p => List.replicate p.1.nrows p.2)).join

/- helper lemmas for the concatenation theorems -/

theorem concatStep_union_toFinset (acc : ConcatResult) (p : CTable × String) :
    (concatStep Concatenate.UNION acc p).attrs.toFinset
      = acc.attrs.toFinset ∪ p.1.attrs.toFinset := by
  have hmode : (Concatenate.UNION = Concatenate.INTERSECTION) = False := by
    simp [Concatenate.UNION, Concatenate.INTERSECTION]
  simp [concatStep, hmode, Finset.sort_toFinset]

theorem concatStep_inter_toFinset (acc : ConcatResult) (p : CTable × String) :
    (concatStep Concatenate.INTERSECTION acc p).attrs.toFinset
      = acc.attrs.toFinset ∩ p.1.attrs.toFinset := by
  simp [concatStep, Finset.sort_toFinset]

theorem foldl_concatStep_rowSource (mode : ℕ)
    (rest : List (CTable × String)) :
    ∀ acc : ConcatResult,
      (rest.foldl (concatStep mode) acc).rowSource
        = acc.rowSource ++ sourceColumn rest := by
  induction rest with
  | nil => intro acc; simp [sourceColumn]
  | cons p ps ih =>
    intro acc
    rw [List.foldl_cons, ih]
    simp [sourceColumn, concatStep, List.append_assoc]

theorem foldl_concatStep_union_toFinset (rest : List (CTable × String)) :
    ∀ acc : ConcatResult,
      (rest.foldl (concatStep Concatenate.UNION) acc).attrs.toFinset
        = acc.attrs.toFinset ∪ allAttrs rest := by
  induction rest with
  | nil => intro acc; simp [allAttrs]
  | cons p ps ih =>
    intro acc
    rw [List.foldl_cons, ih, concatStep_union_toFinset]
    simp [allAttrs, Finset.union_assoc]

theorem foldl_concatStep_inter_toFinset (rest : List (CTable × String)) :
    ∀ s : Finset String, ∀ acc : ConcatResult,
      acc.attrs.toFinset = s →
      (rest.foldl (concatStep Concatenate.INTERSECTION) acc).attrs.toFinset
        = rest.foldl (fun u p => u ∩ p.1.attrs.toFinset) s := by
  induction rest with
  | nil => intro s acc h; simpa using h
  | cons p ps ih =>
    intro s acc h
    rw [List.foldl_cons, List.foldl_cons]
    exact ih _ _ (by rw [concatStep_inter_toFinset, h])

theorem foldl_concatStep_attrs_nodup (mode : ℕ)
    (rest : List (CTable × String)) :
    ∀ acc : ConcatResult, acc.attrs.Nodup →
      (rest.foldl (concatStep mode) acc).attrs.Nodup := by
  induction rest with
  | nil => intro acc h; exact h
  | cons p ps ih =>
    intro acc _
    rw [List.foldl_cons]
    exact ih _ (Finset.sort_nodup _ _)

theorem foldl_concatStep_attrs_sorted (mode : ℕ)
    (rest : List (CTable × String)) (hne : rest ≠ []) :
    ∀ acc : ConcatResult,
      List.Sorted (· ≤ ·) (rest.foldl (concatStep mode) acc).attrs := by
  induction rest with
  | nil => exact absurd rfl hne
  | cons p ps ih =>
    intro acc
    rw [List.foldl_cons]
    cases hps : ps with
    | nil => simpa [hps, concatStep] using Finset.sort_sorted _ _
    | cons q qs =>
      exact hps ▸ ih (by simp [hps]) _

theorem foldl_concatStep_metas_sorted (mode : ℕ)
    (rest : List (CTable × String)) (hne : rest ≠ []) :
    ∀ acc : ConcatResult,
      List.Sorted (· ≤ ·) (rest.foldl (concatStep mode) acc).metas := by
  induction rest with
  | nil => exact absurd rfl hne
  | cons p ps ih =>
    intro acc
    rw [List.foldl_cons]
    cases hps : ps with
    | nil => simpa [hps, concatStep] using Finset.sort_sorted _ _
    | cons q qs =>
      exact hps ▸ ih (by simp [hps]) _

theorem mem_allAttrs (coll : List (CTable × String)) (x : String) :
    x ∈ allAttrs coll ↔ ∃ p ∈ coll, x ∈ p.1.attrs := by
  induction coll with
  | nil => simp [allAttrs]
  | cons p ps ih =>
    simp [allAttrs, List.mem_toFinset] at ih ⊢
    rw [ih]

theorem mem_foldl_inter (rest : List (CTable × String)) :
    ∀ (s : Finset String) (x : String),
      (x ∈ rest.foldl (fun u p => u ∩ p.1.attrs.toFinset) s
        ↔ x ∈ s ∧ ∀ p ∈ rest, x ∈ p.1.attrs) := by
  induction rest with
  | nil => intro s x; simp
  | cons p ps ih =>
    intro s x
    rw [List.foldl_cons, ih]
    simp [List.mem_toFinset, and_assoc]

theorem sourceColumn_length (coll : List (CTable × String)) :
    (sourceColumn coll).length = (coll.map (fun p => p.1.nrows)).sum := by
  induction coll with
  | nil => rfl
  | cons p ps ih =>
    simp [sourceColumn, List.length_replicate] at ih ⊢
    exact ih

/- ### Theorems for C7 -/

/-- C7, confirmed.  For every nonempty ordered collection of (table,
label) pairs whose first table has distinct attributes: under UNION the
result exists and its attribute count is the cardinality of the union of
all distinct attribute identities across the inputs (an attribute occurs
in the result exactly when some input has it), its source column lists,
for each input in order, that input's label once per row, so its row
count is the sum of the input row counts; under INTERSECTION the
attribute count is the cardinality of the attributes common to all
inputs (an attribute occurs exactly when every input has it); and in both
modes, as soon as at least one combining step happened, the attribute and
metadata name lists are sorted. -/
theorem C7_concatenate (t : CTable) (l : String)
    (rest : List (CTable × String)) (h : t.attrs.Nodup) :
    ∃ ru, concatenate Concatenate.UNION ((t, l) :: rest) = some ru ∧
      ru.attrs.length = (allAttrs ((t, l) :: rest)).card ∧
      (∀ x, x ∈ ru.attrs ↔ ∃ p ∈ (t, l) :: rest, x ∈ p.1.attrs) ∧
      ru.rowSource = sourceColumn ((t, l) :: rest) ∧
      ru.rowSource.length
        = (((t, l) :: rest).map (fun p => p.1.nrows)).sum ∧
      (rest ≠ [] → List.Sorted (· ≤ ·) ru.attrs ∧
        List.Sorted (· ≤ ·) ru.metas) ∧
      ∃ ri, concatenate Concatenate.INTERSECTION ((t, l) :: rest)
          = some ri ∧
        ri.attrs.length = (commonAttrs t rest).card ∧
        (∀ x, x ∈ ri.attrs ↔ x ∈ t.attrs ∧ ∀ p ∈ rest, x ∈ p.1.attrs) ∧
        ri.rowSource = sourceColumn ((t, l) :: rest) ∧
        (rest ≠ [] → List.Sorted (· ≤ ·) ri.attrs ∧
          List.Sorted (· ≤ ·) ri.metas) := by
  have hand : (appendSourceName t l).attrs.Nodup := h
  have hU : (rest.foldl (concatStep Concatenate.UNION)
      (appendSourceName t l)).attrs.toFinset
      = allAttrs ((t, l) :: rest) := by
    rw [foldl_concatStep_union_toFinset]
    rfl
  have hUnodup := foldl_concatStep_attrs_nodup Concatenate.UNION rest
    (appendSourceName t l) hand
  have hI : (rest.foldl (concatStep Concatenate.INTERSECTION)
      (appendSourceName t l)).attrs.toFinset
      = commonAttrs t rest :=
    foldl_concatStep_inter_toFinset rest t.attrs.toFinset
      (appendSourceName t l) rfl
  have hInodup := foldl_concatStep_attrs_nodup Concatenate.INTERSECTION rest
    (appendSourceName t l) hand
  have hsrc : ∀ mode, (rest.foldl (concatStep mode)
      (appendSourceName t l)).rowSource = sourceColumn ((t, l) :: rest) := by
    intro mode
    rw [foldl_concatStep_rowSource]
    simp [appendSourceName, sourceColumn]
  refine ⟨_, rfl, ?_, ?_, hsrc _, ?_, ?_, _, rfl, ?_, ?_, hsrc _, ?_⟩
  · rw [← hU, List.toFinset_card_of_nodup hUnodup]
  · intro x
    rw [← List.mem_toFinset, hU, mem_allAttrs]
  · rw [hsrc _, sourceColumn_length]
  · intro hne
    exact ⟨foldl_concatStep_attrs_sorted _ rest hne _,
      foldl_concatStep_metas_sorted _ rest hne _⟩
  · rw [← hI, List.toFinset_card_of_nodup hInodup]
  · intro x
    rw [← List.mem_toFinset, hI, commonAttrs, mem_foldl_inter,
      List.mem_toFinset]
  · intro hne
    exact ⟨foldl_concatStep_attrs_sorted _ rest hne _,
      foldl_concatStep_metas_sorted _ rest hne _⟩

/-- First fixture table for the C7 witness: attributes a, b and 2 rows. -/
def c7t1 : CTable := { attrs := ["a", "b"], metas := [], nrows := 2 }

/-- Second fixture table for the C7 witness: attributes b, c and 1 row. -/
def c7t2 : CTable := { attrs := ["b", "c"], metas := [], nrows := 1 }

/-- C7, witness on two overlapping fixture tables: UNION has 3
attributes and 3 rows, INTERSECTION has 1 attribute, both sorted. -/
theorem C7_concatenate_witness :
    ∃ ru, concatenate Concatenate.UNION [(c7t1, "t1"), (c7t2, "t2")]
        = some ru ∧
      ru.attrs.length = (allAttrs [(c7t1, "t1"), (c7t2, "t2")]).card ∧
      (∀ x, x ∈ ru.attrs
        ↔ ∃ p ∈ [(c7t1, "t1"), (c7t2, "t2")], x ∈ p.1.attrs) ∧
      ru.rowSource = sourceColumn [(c7t1, "t1"), (c7t2, "t2")] ∧
      ru.rowSource.length
        = ([(c7t1, "t1"), (c7t2, "t2")].map (fun p => p.1.nrows)).sum ∧
      ([(c7t2, "t2")] ≠ ([] : List (CTable × String)) →
        List.Sorted (· ≤ ·) ru.attrs ∧ List.Sorted (· ≤ ·) ru.metas) ∧
      ∃ ri, concatenate Concatenate.INTERSECTION
          [(c7t1, "t1"), (c7t2, "t2")] = some ri ∧
        ri.attrs.length = (commonAttrs c7t1 [(c7t2, "t2")]).card ∧
        (∀ x, x ∈ ri.attrs
          ↔ x ∈ c7t1.attrs ∧ ∀ p ∈ [(c7t2, "t2")], x ∈ p.1.attrs) ∧
        ri.rowSource = sourceColumn [(c7t1, "t1"), (c7t2, "t2")] ∧
        ([(c7t2, "t2")] ≠ ([] : List (CTable × String)) →
          List.Sorted (· ≤ ·) ri.attrs ∧ List.Sorted (· ≤ ·) ri.metas) :=
  C7_concatenate c7t1 "t1" [(c7t2, "t2")] (by decide)

/- ### Theorems for C10 -/

/-- C10, confirmed.  In both modes, concatenating an empty collection of
(table, label) pairs returns None rather than a table. -/
theorem C10_concatenate_empty :
    concatenate Concatenate.INTERSECTION [] = none ∧
    concatenate Concatenate.UNION [] = none :=
  ⟨rfl, rfl⟩

/- ### Loader.copy (load_data.py lines 386-390) -/

/-- The configuration fields of a Loader instance, as initialized in
Loader.__init__ (lines 53-90): the bound file path and the GUI
configuration fields.  A Python None is modelled as Option.none.  All of
these fields hold scalar values (booleans, numbers, strings), which
Python rebinds rather than mutates in place. -/
structure LoaderConfig where
  file_name : String
  FIXED_FORMAT : Bool
  ENABLE_ANNOTATIONS : Bool
  header_rows_count : Option ℕ
  header_cols_count : Option ℕ
  transposed : Option Bool
  sample_rows_enabled : Option Bool
  sample_cols_enabled : Option Bool
  sample_rows_p : Option ℚ
  sample_cols_p : Option ℚ
  row_annotations_enabled : Bool
  row_annotation_file : Option String
  col_annotations_enabled : Bool
  col_annotation_file : Option String
  deriving DecidableEq

/-- A heap of Loader objects: object identities are natural numbers below
the allocation bound, each holding its configuration. -/
structure LoaderHeap where
  store : ℕ → LoaderConfig
  next : ℕ

/-- Loader.copy: loader = self.__class__(self._file_name) allocates a
fresh object, then every attribute of the fresh object is overwritten
with the corresponding attribute of self via setattr.  Returns the heap
after allocation and the identity of the new object. -/
def copyLoader (h : LoaderHeap) (src : ℕ) : LoaderHeap × ℕ :=
  ({ store := fun i => if i = h.next then h.store src else h.store i,
     next := h.next + 1 }, h.next)

/-- A caller mutating one configuration field of one Loader object:
setattr rebinds the field of exactly that object. -/
def setConfigField (h : LoaderHeap) (obj : ℕ)
    (f : LoaderConfig → LoaderConfig) : LoaderHeap :=
  { h with store := fun i => if i = obj then f (h.store i) else h.store i }

/- ### Theorems for C8 -/

/-- C8, confirmed.  For a Loader object src in a heap, copy yields a new
object distinct from src, bound to the same file path with every
configuration field equal to the corresponding field of src; afterwards,
mutating any configuration field of the copy leaves every field of the
original unchanged, and mutating any field of the original leaves every
field of the copy unchanged. -/
theorem C8_copy (h : LoaderHeap) (src : ℕ)
    (f g : LoaderConfig → LoaderConfig) (hsrc : src < h.next) :
    (copyLoader h src).2 ≠ src ∧
    (copyLoader h src).1.store (copyLoader h src).2 = h.store src ∧
    ((copyLoader h src).1.store (copyLoader h src).2).file_name
      = (h.store src).file_name ∧
    (setConfigField (copyLoader h src).1 (copyLoader h src).2 f).store src
      = h.store src ∧
    (setConfigField (copyLoader h src).1 src g).store (copyLoader h src).2
      = h.store src := by
  have hne : src ≠ h.next := Nat.ne_of_lt hsrc
  refine ⟨fun hc => hne hc.symm, ?_, ?_, ?_, ?_⟩
  · simp [copyLoader]
  · simp [copyLoader]
  · simp [copyLoader, setConfigField, hne]
  · simp [copyLoader, setConfigField, hne, Ne.symm hne]

/-- The configuration of a freshly constructed base Loader
(Loader.__init__ defaults). -/
def initLoaderConfig : LoaderConfig :=
  { file_name := "data.tsv", FIXED_FORMAT := true,
    ENABLE_ANNOTATIONS := true, header_rows_count := none,
    header_cols_count := none, transposed := none,
    sample_rows_enabled := none, sample_cols_enabled := none,
    sample_rows_p := none, sample_cols_p := none,
    row_annotations_enabled := true, row_annotation_file := none,
    col_annotations_enabled := true, col_annotation_file := none }

/-- A one-object heap for the C8 witness. -/
def c8heap : LoaderHeap := { store := fun _ => initLoaderConfig, next := 1 }

/-- The C8 witness mutation: enable row sampling on one object. -/
def c8flip : LoaderConfig → LoaderConfig :=
  fun cfg => { cfg with sample_rows_enabled := some true }

/-- C8, witness: in a one-object heap, copying object 0 and flipping the
row-sampling flag on either side leaves the other side's configuration
untouched. -/
theorem C8_copy_witness :
    (copyLoader c8heap 0).2 ≠ 0 ∧
    (copyLoader c8heap 0).1.store (copyLoader c8heap 0).2
      = c8heap.store 0 ∧
    ((copyLoader c8heap 0).1.store (copyLoader c8heap 0).2).file_name
      = (c8heap.store 0).file_name ∧
    (setConfigField (copyLoader c8heap 0).1 (copyLoader c8heap 0).2
        c8flip).store 0 = c8heap.store 0 ∧
    (setConfigField (copyLoader c8heap 0).1 0 c8flip).store
        (copyLoader c8heap 0).2 = c8heap.store 0 :=
  C8_copy c8heap 0 c8flip c8flip (by decide)
